import Mathlib

/-!
# Verification of the ops_tutorial sampling-session driver specification

The repository `openpathsampling/ops_tutorial` is tutorial glue over the
external OpenPathSampling library.  Its specification describes a generic
"Sampling Session Driver": a data model of Samples / SampleSets / Steps, an
initial-condition bootstrap with a repair loop, a Monte-Carlo run loop with a
save-frequency cadence and best-effort visualization hooks, and a deterministic
step-count estimator `n_steps_for_trials`.

The only driver logic that is literally present in the repository's source is
the trajectory repair loop of `4_mstis_sampling_tutorial.ipynb` (cell-32):

    while not transition.stateA(sset[innermost_ensemble].trajectory[-1]):
        pseudosim.run(1)
        sset = pseudosim.sample_set

Everything else (`SampleSet.apply_samples`, `PathSampling.run`,
`MoveScheme.n_steps_for_trials`, `initial_conditions_from_trajectories`,
`Storage`) lives in the external library; those operations are modelled here
from the specification's own description of them, as indicated by the
`Modelled from the spec:` doc comments.
-/

set_option linter.unusedSectionVars false

namespace OpsTutorial

/-! ## Data model -/

/-- Modelled from the spec: the accept/reject decision recorded in a Step
("`{ACCEPTED, REJECTED}`" in the run-loop state machine). -/
inductive Decision : Type where
  | accepted : Decision
  | rejected : Decision
deriving DecidableEq, Repr

/-- Modelled from the spec: "Sample: a (replica-id, ensemble, trajectory)
triple representing one occupant of one sampling ensemble."  `Ens` is the type
of ensembles (predicates over trajectories in the real system) and `Traj` the
type of trajectories. -/
structure Sample (Ens Traj : Type) : Type where
  replica : Int
  ensemble : Ens
  trajectory : Traj
deriving DecidableEq, Repr

variable {Ens Traj : Type} [DecidableEq Ens] [DecidableEq Traj]

/-- The list of ensembles occupied by a SampleSet (a SampleSet is modelled as
a list of Samples, read as a mapping from ensemble to Sample). -/
def ensemblesOf (S : List (Sample Ens Traj)) : List Ens :=
  S.map Sample.ensemble

/-- Looking up the occupant of an ensemble in a SampleSet, as in the
notebook's `sset[innermost_ensemble]`. -/
def lookupSample (S : List (Sample Ens Traj)) (e : Ens) : Option (Sample Ens Traj) :=
  S.find? (fun s => decide (s.ensemble = e))

/-- Modelled from the spec: `SampleSet.apply_samples` (external library,
called in the notebook as `sset.apply_samples(minus_samples)`): "Mutated only
by applying a validated list of new Samples (an atomic replace-by-ensemble
operation)".  Every occupant of an ensemble named by a new Sample is dropped,
and the new Samples are appended. -/
def apply_samples (S L : List (Sample Ens Traj)) : List (Sample Ens Traj) :=
  S.filter (fun s => decide (s.ensemble ∉ ensemblesOf L)) ++ L

/-- Modelled from the spec: "Step: an immutable record of one Monte Carlo
iteration — the SampleSet before, the move applied, and the SampleSet after
(active)." -/
structure StepRecord (Ens Traj : Type) : Type where
  before : List (Sample Ens Traj)
  decision : Decision
  active : List (Sample Ens Traj)
deriving DecidableEq, Repr

/-! ## The repair loop (notebook cell-32)

Translated from `4_mstis_sampling_tutorial.ipynb`:

    while not transition.stateA(sset[innermost_ensemble].trajectory[-1]):
        pseudosim.run(1)
        sset = pseudosim.sample_set

Each iteration performs one `pseudosim.run(1)` shooting move; the loop guard
re-tests whether the final frame of the innermost-ensemble trajectory is in
state A.  We embed the engine's behaviour as an oracle `endsInA : Nat → Bool`:
`endsInA k` is the guard's value after `k` shooting moves have been run.  The
loop itself carries no retry counter and has no failure exit; we observe it
through a fuel parameter bounding how long we watch it run. -/

/-- The repair loop of cell-32, observed for `fuel` iterations starting after
`k` shooting moves: returns `some j` when the guard first holds after `j`
moves, and `none` when the guard was still false every time we looked (the
loop is still running — there is no error exit in the source). -/
def repairLoop (endsInA : Nat → Bool) : Nat → Nat → Option Nat
  | 0, _ => none
  | fuel + 1, k => if endsInA k then some k else repairLoop endsInA fuel (k + 1)

/-- The number of `pseudosim.run(1)` calls the repair loop performs within a
`fuel`-iteration observation window starting after `k` moves. -/
def repairRetries (endsInA : Nat → Bool) : Nat → Nat → Nat
  | 0, _ => 0
  | fuel + 1, k => if endsInA k then 0 else 1 + repairRetries endsInA fuel (k + 1)

/-! ## `n_steps_for_trials` (cell-45) -/

/-- Modelled from the spec: `MoveScheme.n_steps_for_trials(mover, n)` lives in
the external library; the notebook calls it in cell-45
(`scheme.n_steps_for_trials(scheme.movers['shooting'][0], 10)`) and records in
cell-48 that the returned value "is a `float`, so we need to turn it into an
`int` first" (`mstis_calc.run(int(n_steps))`).  The value is the
expected-value solution `target / p`, where `p` is the mover's selection
probability under the scheme's move-selection distribution; we model the
float arithmetic as exact rational arithmetic. -/
def n_steps_for_trials (p target : ℚ) : ℚ := target / p

/-! ## The run loop

Modelled from the spec: `run(num_iterations)` "performs exactly
`num_iterations` Monte Carlo steps.  Each step: selects a move from the move
scheme according to its selection policy, applies it to the current SampleSet
producing a candidate SampleSet, accepts or rejects according to the move's
detailed-balance criterion, sets the new SampleSet as current, and — at a
configurable cadence — persists a Step record to Storage"; the cadence is the
notebook's `mstis_calc.save_frequency = 50` (cell-41) and the spec's "only
every Kth step is physically written, but logically every step still updates
in-memory current state".  Live-visualization hooks (cell-43) are "invoked
synchronously after each persisted Step", and "an exception inside a
visualization hook should not abort the run loop (it is caught and logged)".

The move scheme and engine are abstracted as a proposal function (what list
of new Samples the selected move proposes at a given step) and an acceptance
function (the detailed-balance outcome); a hook either succeeds or raises an
exception carrying a message. -/

/-- Modelled from the spec: the Session Driver's collaborators and policy —
move proposal, accept/reject outcome, save frequency, visualization hook. -/
structure Driver (Ens Traj : Type) : Type where
  propose : Nat → List (Sample Ens Traj) → List (Sample Ens Traj)
  accept : Nat → List (Sample Ens Traj) → Bool
  save_frequency : Nat
  hook : StepRecord Ens Traj → Except String Unit

/-- Modelled from the spec: the mutable state of a `PathSampling` calculation
— the current (active) SampleSet, the iteration counter, the full logical
step history, the physically persisted steps, and the log of suppressed hook
exceptions. -/
structure DriverState (Ens Traj : Type) : Type where
  active : List (Sample Ens Traj)
  stepsDone : Nat
  steps : List (StepRecord Ens Traj)
  stored : List (StepRecord Ens Traj)
  log : List String
deriving DecidableEq, Repr

/-- Whether step number `k` is physically written under save frequency `K`
(the spec's "only every Kth step is physically written"). -/
def persistsAt (K k : Nat) : Bool := K != 0 && k % K == 0

/-- The Step record produced by one Monte Carlo iteration: the selected
move's proposal is applied to the active SampleSet by `apply_samples`, and
the accept/reject decision picks the candidate or keeps the old state. -/
def stepRecordOf (d : Driver Ens Traj) (st : DriverState Ens Traj) : StepRecord Ens Traj :=
  let candidate := apply_samples st.active (d.propose (st.stepsDone + 1) st.active)
  let acc := d.accept (st.stepsDone + 1) candidate
  { before := st.active
    decision := if acc then Decision.accepted else Decision.rejected
    active := if acc then candidate else st.active }

/-- One iteration of the run loop: produce the Step record, advance the
active SampleSet, persist at the save-frequency cadence, and invoke the
visualization hook after a persisted Step, logging (never propagating) any
exception it raises. -/
def runOneStep (d : Driver Ens Traj) (st : DriverState Ens Traj) : DriverState Ens Traj :=
  let record := stepRecordOf d st
  { active := record.active
    stepsDone := st.stepsDone + 1
    steps := st.steps ++ [record]
    stored := if persistsAt d.save_frequency (st.stepsDone + 1)
              then st.stored ++ [record] else st.stored
    log := if persistsAt d.save_frequency (st.stepsDone + 1) then
             match d.hook record with
             | Except.ok _ => st.log
             | Except.error e => st.log ++ [e]
           else st.log }

/-- `run(num_iterations)`: the strictly sequential iteration of
`runOneStep`. -/
def run (d : Driver Ens Traj) (st : DriverState Ens Traj) : Nat → DriverState Ens Traj
  | 0 => st
  | n + 1 => run d (runOneStep d st) n

/-- The number of physically written steps among step numbers
`done + 1, …, done + n` under save frequency `K`. -/
def countSaves (K : Nat) : Nat → Nat → Nat
  | _, 0 => 0
  | done, n + 1 => (if persistsAt K (done + 1) then 1 else 0) + countSaves K (done + 1) n

/-- The exception messages a hook raises on a list of persisted Step records
(the suppressed-and-logged failures of the spec's `VisualizationHookError`). -/
def hookErrorLog (d : Driver Ens Traj) (records : List (StepRecord Ens Traj)) : List String :=
  records.filterMap (fun r =>
    match d.hook r with
    | Except.ok _ => none
    | Except.error e => some e)

/-! ## Storage serialization (C9)

Modelled from the spec: the Storage collaborator "exposes an append-only
sequence of Steps" and the round-trip property "persisting N Steps then
reading them back yields N Step records whose active SampleSets reproduce the
same ensemble-to-replica-id mapping".  Persisting flattens each Sample to its
(replica-id, ensemble, trajectory) triple; reading rebuilds the Samples. -/

/-- Serialize a SampleSet for storage: each Sample becomes its
(replica-id, ensemble, trajectory) triple. -/
def writeSampleSet (S : List (Sample Ens Traj)) : List (Int × Ens × Traj) :=
  S.map (fun s => (s.replica, s.ensemble, s.trajectory))

/-- Rebuild a SampleSet from its stored triples. -/
def readSampleSet (l : List (Int × Ens × Traj)) : List (Sample Ens Traj) :=
  l.map (fun x => ⟨x.1, x.2.1, x.2.2⟩)

/-- Serialize a Step record for storage. -/
def writeStep (r : StepRecord Ens Traj) :
    List (Int × Ens × Traj) × Decision × List (Int × Ens × Traj) :=
  (writeSampleSet r.before, r.decision, writeSampleSet r.active)

/-- Rebuild a Step record from storage. -/
def readStep (x : List (Int × Ens × Traj) × Decision × List (Int × Ens × Traj)) :
    StepRecord Ens Traj :=
  ⟨readSampleSet x.1, x.2.1, readSampleSet x.2.2⟩

/-- The ensemble-to-replica-id mapping of a SampleSet. -/
def replicaOf (S : List (Sample Ens Traj)) (e : Ens) : Option Int :=
  (lookupSample S e).map Sample.replica

/-! ## SampleSet validity (C7)

Modelled from the spec: "Replica ids are unique integers; an ensemble may be
occupied by at most one Sample within the current global state" and
"Invariant: every Sample's trajectory must satisfy the defining predicate of
its ensemble at the moment it is accepted into a SampleSet".  `sat e t`
decides the defining predicate of ensemble `e` on trajectory `t`. -/

/-- A SampleSet is valid when every ensemble has at most one occupant, the
replica ids are pairwise distinct, and every Sample's trajectory satisfies
its ensemble's defining predicate. -/
def validSampleSet (sat : Ens → Traj → Bool) (S : List (Sample Ens Traj)) : Prop :=
  (ensemblesOf S).Nodup ∧ (S.map Sample.replica).Nodup ∧
    ∀ s ∈ S, sat s.ensemble s.trajectory = true

/-- Modelled from the spec: a list of new Samples is validated against the
SampleSet it is applied to when its ensembles are distinct, its replica ids
are distinct, every trajectory satisfies its ensemble's predicate, and its
replica ids do not collide with the replica ids of the Samples that survive
the replace-by-ensemble (those whose ensemble is not being replaced). -/
def ValidatedFor (sat : Ens → Traj → Bool) (S L : List (Sample Ens Traj)) : Prop :=
  (ensemblesOf L).Nodup ∧ (L.map Sample.replica).Nodup ∧
    (∀ s ∈ L, sat s.ensemble s.trajectory = true) ∧
    ∀ s ∈ L, ∀ t ∈ S, t.ensemble ∉ ensemblesOf L → s.replica ≠ t.replica

/-- Modelled from the spec: the SampleSets reachable by the driver's
operations — a bootstrap result (fully populated and valid), followed by any
number of applications of validated lists of new Samples. -/
inductive ReachableSampleSet (sat : Ens → Traj → Bool) :
    List (Sample Ens Traj) → Prop where
  | boot : ∀ S, validSampleSet sat S → ReachableSampleSet sat S
  | applyStep : ∀ S L, ReachableSampleSet sat S → ValidatedFor sat S L →
      ReachableSampleSet sat (apply_samples S L)

/-! ## Bootstrap from trajectories (C10)

Modelled from the spec and the notebook's cell-38 markdown: "the ensembles
that get filled by `MoveScheme.initial_conditions_from_trajectories` depend
on which ensembles are used by the move scheme.  The network may define
ensembles that are unused. … here we want to keep most of the sample set
unchanged, so we give an initial sample set.  In this case, the method only
appends new samples."  For each move-scheme ensemble lacking an occupant, the
first candidate trajectory satisfying its predicate (if any) is appended as a
new Sample. -/

/-- Modelled from the spec: `MoveScheme.initial_conditions_from_trajectories`
(external library, called in cell-19 and cell-37).  Walks the move scheme's
ensembles; an already-occupied ensemble is skipped, an unoccupied one is
filled with the first satisfying candidate trajectory when one exists. -/
def initial_conditions_from_trajectories (sat : Ens → Traj → Bool) (trajs : List Traj) :
    List Ens → List (Sample Ens Traj) → List (Sample Ens Traj)
  | [], sset => sset
  | e :: es, sset =>
    initial_conditions_from_trajectories sat trajs es
      (if (lookupSample sset e).isSome then sset
       else
         match trajs.find? (fun t => sat e t) with
         | some t => sset ++ [⟨sset.length, e, t⟩]
         | none => sset)

/-! ## Concrete instances used by the witnesses -/

/-- A concrete driver over `Ens = Nat`, `Traj = Nat` whose single move type
re-proposes nothing and is always accepted, with a configurable save
frequency and a hook that never fails. -/
def sampleDriver (K : Nat) : Driver Nat Nat :=
  { propose := fun _ _ => []
    accept := fun _ _ => true
    save_frequency := K
    hook := fun _ => Except.ok () }

/-- A concrete fresh driver state over `Ens = Nat`, `Traj = Nat`. -/
def sampleState : DriverState Nat Nat :=
  { active := [⟨0, 1, 7⟩]
    stepsDone := 0
    steps := []
    stored := []
    log := [] }

/-- A concrete ensemble predicate over `Ens = Nat`, `Traj = Nat`: ensemble
`e` accepts exactly trajectory `e`. -/
def satW : Nat → Nat → Bool := fun e t => e == t

/-! ## Lemmas about SampleSet lookup and replacement -/

/-- `find?` commutes with `filter` when the filter keeps everything the
search predicate accepts. -/
theorem find?_filter_of_imp (S : List (Sample Ens Traj)) (p q : Sample Ens Traj → Bool)
    (h : ∀ a, p a = true → q a = true) :
    (S.filter q).find? p = S.find? p := by
  induction S with
  | nil => rfl
  | cons a S ih =>
    by_cases hp : p a = true
    · have hq := h a hp
      simp [List.filter_cons, hq, List.find?_cons, hp]
    · have hp' : p a = false := by
        cases hpa : p a
        · rfl
        · exact absurd hpa hp
      by_cases hq : q a = true
      · simp [List.filter_cons, hq, List.find?_cons, hp', ih]
      · have hq' : q a = false := by
          cases hqa : q a
          · rfl
          · exact absurd hqa hq
        simp [List.filter_cons, hq', List.find?_cons, hp', ih]

/-- `find?` on a filtered list returns nothing when the filter drops
everything the search predicate accepts. -/
theorem find?_filter_of_excl (S : List (Sample Ens Traj)) (p q : Sample Ens Traj → Bool)
    (h : ∀ a, p a = true → q a = false) :
    (S.filter q).find? p = none := by
  induction S with
  | nil => rfl
  | cons a S ih =>
    by_cases hp : p a = true
    · have hq := h a hp
      simp [List.filter_cons, hq, ih]
    · have hp' : p a = false := by
        cases hpa : p a
        · rfl
        · exact absurd hpa hp
      by_cases hq : q a = true
      · simp [List.filter_cons, hq, List.find?_cons, hp', ih]
      · have hq' : q a = false := by
          cases hqa : q a
          · rfl
          · exact absurd hqa hq
        simp [List.filter_cons, hq', ih]

/-- If the ensembles of `L` are distinct and `e` is among them, `L` has
exactly one occupant of `e`. -/
theorem filter_ensemble_length_one (L : List (Sample Ens Traj)) (e : Ens)
    (hL : (ensemblesOf L).Nodup) (he : e ∈ ensemblesOf L) :
    (L.filter (fun s => decide (s.ensemble = e))).length = 1 := by
  induction L with
  | nil => simp [ensemblesOf] at he
  | cons a L ih =>
    simp only [ensemblesOf, List.map_cons, List.nodup_cons] at hL
    rcases hL with ⟨ha, hL'⟩
    simp only [ensemblesOf, List.map_cons, List.mem_cons] at he
    by_cases hae : a.ensemble = e
    · subst hae
      have hnone : (L.filter (fun s => decide (s.ensemble = a.ensemble))).length = 0 := by
        rw [List.length_eq_zero]
        rw [List.filter_eq_nil_iff]
        intro s hs
        simp only [decide_eq_true_eq]
        intro hcontra
        exact ha (hcontra ▸ List.mem_map_of_mem Sample.ensemble hs)
      simp [List.filter_cons, hnone]
    · have he' : e ∈ ensemblesOf L := by
        rcases he with he | he
        · exact absurd he.symm hae
        · exact he
      have : (decide (a.ensemble = e)) = false := by
        simp [hae]
      simp [List.filter_cons, this, ih hL' he']

/-- **C2.** Applying a validated list `L` of new Samples to a SampleSet `S` is
an atomic replace-by-ensemble: every ensemble not named by a sample of `L`
keeps exactly the Sample it had in `S`, and every ensemble named by a sample
of `L` is occupied by exactly one Sample, taken from `L`. -/
theorem apply_samples_replace_by_ensemble
    (S L : List (Sample Ens Traj)) (e : Ens)
    (hL : (ensemblesOf L).Nodup) :
    (e ∉ ensemblesOf L → lookupSample (apply_samples S L) e = lookupSample S e) ∧
    (e ∈ ensemblesOf L →
      ((apply_samples S L).filter (fun s => decide (s.ensemble = e))).length = 1 ∧
      ∃ s, lookupSample (apply_samples S L) e = some s ∧ s ∈ L ∧ s.ensemble = e) := by
  constructor
  · intro he
    unfold lookupSample apply_samples
    rw [List.find?_append]
    rw [find?_filter_of_imp S _ _ (by
      intro a ha
      simp only [decide_eq_true_eq] at ha ⊢
      exact ha ▸ he)]
    have hLnone : L.find? (fun s => decide (s.ensemble = e)) = none := by
      rw [List.find?_eq_none]
      intro s hs
      simp only [decide_eq_true_eq]
      intro hse
      exact he (hse ▸ List.mem_map_of_mem Sample.ensemble hs)
    cases hS : S.find? (fun s => decide (s.ensemble = e)) <;> simp [hS, hLnone]
  · intro he
    constructor
    · unfold apply_samples
      rw [List.filter_append]
      have hkeptnil :
          (S.filter (fun s => decide (s.ensemble ∉ ensemblesOf L))).filter
            (fun s => decide (s.ensemble = e)) = [] := by
        rw [List.filter_eq_nil_iff]
        intro s hs
        rcases List.mem_filter.mp hs with ⟨_, hq⟩
        simp only [decide_eq_true_eq] at hq ⊢
        intro hse
        exact hq (hse ▸ he)
      rw [hkeptnil]
      simpa using filter_ensemble_length_one L e hL he
    · unfold lookupSample apply_samples
      rw [List.find?_append]
      rw [find?_filter_of_excl S _ _ (by
        intro a ha
        simp only [decide_eq_true_eq] at ha
        simp [ha, he])]
      have hsome : (L.find? (fun s => decide (s.ensemble = e))).isSome := by
        rw [List.find?_isSome]
        rcases List.mem_map.mp he with ⟨s, hs, hse⟩
        exact ⟨s, hs, by simp [hse]⟩
      rcases Option.isSome_iff_exists.mp hsome with ⟨s, hfind⟩
      refine ⟨s, by simp [hfind], List.mem_of_find?_eq_some hfind, ?_⟩
      have := List.find?_some hfind
      simpa using this

/-- Witness for **C2** at a concrete SampleSet and new-sample list over
`Ens = Nat`, `Traj = Nat`: ensemble 1 is replaced by the single new Sample. -/
theorem apply_samples_replace_by_ensemble_witness :
    ((apply_samples [(⟨0, 1, 10⟩ : Sample Nat Nat), ⟨1, 2, 11⟩] [⟨5, 1, 20⟩]).filter
        (fun s => decide (s.ensemble = 1))).length = 1 ∧
    ∃ s, lookupSample (apply_samples [(⟨0, 1, 10⟩ : Sample Nat Nat), ⟨1, 2, 11⟩] [⟨5, 1, 20⟩]) 1 =
        some s ∧ s ∈ [(⟨5, 1, 20⟩ : Sample Nat Nat)] ∧ s.ensemble = 1 :=
  (apply_samples_replace_by_ensemble [(⟨0, 1, 10⟩ : Sample Nat Nat), ⟨1, 2, 11⟩]
    [⟨5, 1, 20⟩] 1 (by decide)).2 (by decide)

/-! ## Theorems about the repair loop (C1) -/

/-- One-step unfolding of `repairLoop`. -/
theorem repairLoop_succ (endsInA : Nat → Bool) (fuel k : Nat) :
    repairLoop endsInA (fuel + 1) k =
      if endsInA k then some k else repairLoop endsInA fuel (k + 1) := rfl

/-- One-step unfolding of `repairRetries`. -/
theorem repairRetries_succ (endsInA : Nat → Bool) (fuel k : Nat) :
    repairRetries endsInA (fuel + 1) k =
      if endsInA k then 0 else 1 + repairRetries endsInA fuel (k + 1) := rfl

/-- When the guard never holds, the loop performs one shooting move per
iteration watched: its retry count is the whole observation window. -/
theorem repairRetries_of_never (endsInA : Nat → Bool) (fuel k : Nat)
    (h : ∀ i, endsInA i = false) :
    repairRetries endsInA fuel k = fuel := by
  induction fuel generalizing k with
  | zero => rfl
  | succ n ih =>
    rw [repairRetries_succ, if_neg (by simp [h k]), ih]
    omega

/-- **C1, counterexample.** The claim asserts a fixed finite retry budget on
the repair loop: some bound `B` such that the loop never performs more than
`B` repair moves before failing.  The loop of cell-32 has no such bound: for
an engine whose shooting moves never produce a trajectory ending in state A,
the loop performs as many `pseudosim.run(1)` calls as we watch it for, beyond
any proposed budget, and it has no failure exit at all. -/
theorem repair_loop_unbounded :
    ¬ ∃ B : Nat, ∀ (endsInA : Nat → Bool) (fuel k : Nat),
      repairRetries endsInA fuel k ≤ B := by
  rintro ⟨B, hB⟩
  have h := hB (fun _ => false) (B + 1) 0
  rw [repairRetries_of_never (fun _ => false) (B + 1) 0 (fun _ => rfl)] at h
  omega

/-- **C1, amended.** The repair loop of cell-32 has no retry budget and
raises no `IncompleteInitializationError` (its only outcomes are success or
continuing to run): while the guard fails it performs exactly one shooting
move per iteration — `n` consecutive guard failures mean `n` repair moves —
and it stops exactly at the first success, returning once the trajectory's
final frame is in state A. -/
theorem repair_loop_no_budget (endsInA : Nat → Bool) (n k m : Nat)
    (hfail : ∀ i, i < n → endsInA (k + i) = false)
    (hsucc : endsInA (k + n) = true) :
    repairRetries endsInA n k = n ∧ repairLoop endsInA (n + m + 1) k = some (k + n) := by
  induction n generalizing k with
  | zero =>
    refine ⟨rfl, ?_⟩
    have hk : endsInA k = true := by simpa using hsucc
    rw [Nat.zero_add, repairLoop_succ, if_pos hk, Nat.add_zero]
  | succ n ih =>
    have hk : endsInA k = false := by
      have := hfail 0 (Nat.succ_pos n)
      simpa using this
    have hfail' : ∀ i, i < n → endsInA (k + 1 + i) = false := by
      intro i hi
      have := hfail (i + 1) (by omega)
      have harith : k + (i + 1) = k + 1 + i := by omega
      rwa [harith] at this
    have hsucc' : endsInA (k + 1 + n) = true := by
      have harith : k + (n + 1) = k + 1 + n := by omega
      rwa [harith] at hsucc
    rcases ih (k + 1) hfail' hsucc' with ⟨hret, hloop⟩
    constructor
    · rw [repairRetries_succ, if_neg (by simp [hk]), hret]
      omega
    · have harith : n + 1 + m + 1 = (n + m + 1) + 1 := by omega
      rw [harith, repairLoop_succ, if_neg (by simp [hk]), hloop]
      exact congrArg some (by omega)

/-- Witness for the amended **C1**: an engine whose third shooting move is the
first to produce a valid trajectory makes the loop perform exactly three
repair moves and stop after the third. -/
theorem repair_loop_no_budget_witness :
    repairRetries (fun i => decide (i = 3)) 3 0 = 3 ∧
    repairLoop (fun i => decide (i = 3)) 4 0 = some 3 :=
  repair_loop_no_budget (fun i => decide (i = 3)) 3 0 0 (by decide) (by decide)

/-! ## Theorems about `n_steps_for_trials` (C4, C6) -/

/-- **C4, counterexample.** The claim says `n_steps_for_trials` "returns an
integer equal to the minimum number of run-loop iterations n such that n
times the mover's selection probability is at least t".  With selection
probability 3/10 and target 10 trials, the returned value is 100/3, which is
not an integer; moreover the notebook's `int()` truncation gives 33, whose
expected trial count 33·(3/10) = 9.9 falls short of the target, while 34
meets it. -/
theorem n_steps_for_trials_not_integer :
    (¬ ∃ z : ℤ, n_steps_for_trials (3 / 10) 10 = (z : ℚ)) ∧
    ⌊n_steps_for_trials (3 / 10) 10⌋ = 33 ∧
    ¬ ((10 : ℚ) ≤ (33 : ℚ) * (3 / 10)) ∧ (10 : ℚ) ≤ (34 : ℚ) * (3 / 10) := by
  have key : n_steps_for_trials (3 / 10) 10 = 100 / 3 := by
    unfold n_steps_for_trials
    norm_num
  refine ⟨?_, ?_, by norm_num, by norm_num⟩
  · rintro ⟨z, hz⟩
    rw [key] at hz
    have h : (100 : ℚ) = (z : ℚ) * 3 := by
      field_simp at hz
      linarith
    have h' : (100 : ℤ) = z * 3 := by exact_mod_cast h
    omega
  · rw [key]
    rw [Int.floor_eq_iff]
    norm_num

/-- **C4, amended.** `n_steps_for_trials(mover, target)` returns the exact
expected-value solution `target / p` as a float (in general not an integer):
it is the unique real iteration count whose expected number of selections of
the mover equals the target, equivalently the least real `n` with
`n · p ≥ target`; the caller truncates it with `int()`.  The computation is
deterministic arithmetic, not a simulation. -/
theorem n_steps_for_trials_exact (p target : ℚ) (hp : 0 < p) :
    n_steps_for_trials p target * p = target ∧
    (∀ n : ℚ, target ≤ n * p ↔ n_steps_for_trials p target ≤ n) := by
  constructor
  · exact div_mul_cancel₀ target (ne_of_gt hp)
  · intro n
    exact (div_le_iff₀ hp).symm

/-- Witness for the amended **C4** at selection probability 1/2 and target
10: the estimate is 20 iterations, which meets the target exactly. -/
theorem n_steps_for_trials_exact_witness :
    n_steps_for_trials (1 / 2) 10 * (1 / 2) = 10 ∧
    ((10 : ℚ) ≤ 20 * (1 / 2) ↔ n_steps_for_trials (1 / 2) 10 ≤ 20) :=
  ⟨(n_steps_for_trials_exact (1 / 2) 10 (by norm_num)).1,
   (n_steps_for_trials_exact (1 / 2) 10 (by norm_num)).2 20⟩

/-- **C6.** For a fixed mover and scheme (fixed selection probability
`p > 0`), `n_steps_for_trials` is monotonically non-decreasing in the target
trial count. -/
theorem n_steps_for_trials_monotone (p t1 t2 : ℚ) (hp : 0 < p) (ht : t1 ≤ t2) :
    n_steps_for_trials p t1 ≤ n_steps_for_trials p t2 := by
  unfold n_steps_for_trials
  exact (div_le_div_iff_of_pos_right hp).mpr ht

/-- Witness for **C6**: raising the target from 3 to 10 trials at selection
probability 1/2 does not decrease the estimated iteration count. -/
theorem n_steps_for_trials_monotone_witness :
    n_steps_for_trials (1 / 2) 3 ≤ n_steps_for_trials (1 / 2) 10 :=
  n_steps_for_trials_monotone (1 / 2) 3 10 (by norm_num) (by norm_num)

/-! ## Run-loop bookkeeping lemmas -/

/-- Running zero iterations leaves the state unchanged. -/
theorem run_zero (d : Driver Ens Traj) (st : DriverState Ens Traj) :
    run d st 0 = st := rfl

/-- `run` peels one iteration at a time. -/
theorem run_succ (d : Driver Ens Traj) (st : DriverState Ens Traj) (n : Nat) :
    run d st (n + 1) = run d (runOneStep d st) n := rfl

/-- One iteration sets the active SampleSet to the Step record's
after-state. -/
theorem runOneStep_active (d : Driver Ens Traj) (st : DriverState Ens Traj) :
    (runOneStep d st).active = (stepRecordOf d st).active := rfl

/-- One iteration advances the step counter by one. -/
theorem runOneStep_stepsDone (d : Driver Ens Traj) (st : DriverState Ens Traj) :
    (runOneStep d st).stepsDone = st.stepsDone + 1 := rfl

/-- One iteration appends exactly one logical Step record. -/
theorem runOneStep_steps (d : Driver Ens Traj) (st : DriverState Ens Traj) :
    (runOneStep d st).steps = st.steps ++ [stepRecordOf d st] := rfl

/-- One iteration persists exactly at the save-frequency cadence. -/
theorem runOneStep_stored (d : Driver Ens Traj) (st : DriverState Ens Traj) :
    (runOneStep d st).stored =
      if persistsAt d.save_frequency (st.stepsDone + 1)
      then st.stored ++ [stepRecordOf d st] else st.stored := rfl

/-- One iteration logs a hook failure exactly when the step is persisted and
the hook raises. -/
theorem runOneStep_log (d : Driver Ens Traj) (st : DriverState Ens Traj) :
    (runOneStep d st).log =
      if persistsAt d.save_frequency (st.stepsDone + 1) then
        match d.hook (stepRecordOf d st) with
        | Except.ok _ => st.log
        | Except.error e => st.log ++ [e]
      else st.log := rfl

/-- One-step unfolding of `countSaves`. -/
theorem countSaves_succ (K done n : Nat) :
    countSaves K done (n + 1) =
      (if persistsAt K (done + 1) then 1 else 0) + countSaves K (done + 1) n := rfl

/-- `run(n)` advances the step counter by exactly `n`: every iteration is one
Monte Carlo step. -/
theorem run_stepsDone (d : Driver Ens Traj) (st : DriverState Ens Traj) (n : Nat) :
    (run d st n).stepsDone = st.stepsDone + n := by
  induction n generalizing st with
  | zero => rfl
  | succ n ih =>
    rw [run_succ, ih, runOneStep_stepsDone]
    omega

/-- `run(n)` appends exactly `n` logical Step records. -/
theorem run_steps_length (d : Driver Ens Traj) (st : DriverState Ens Traj) (n : Nat) :
    (run d st n).steps.length = st.steps.length + n := by
  induction n generalizing st with
  | zero => rfl
  | succ n ih =>
    rw [run_succ, ih, runOneStep_steps, List.length_append, List.length_singleton]
    omega

/-- `run(n)` performs exactly `countSaves` physical Storage appends. -/
theorem run_stored_length (d : Driver Ens Traj) (st : DriverState Ens Traj) (n : Nat) :
    (run d st n).stored.length =
      st.stored.length + countSaves d.save_frequency st.stepsDone n := by
  induction n generalizing st with
  | zero => rfl
  | succ n ih =>
    rw [run_succ, ih, runOneStep_stepsDone, runOneStep_stored, countSaves_succ]
    by_cases hp : persistsAt d.save_frequency (st.stepsDone + 1) = true
    · rw [if_pos hp, if_pos hp, List.length_append, List.length_singleton]
      omega
    · rw [if_neg hp, if_neg hp]
      omega

/-- Replacing Samples whose ensembles all already occur in `S` leaves the set
of occupied ensembles unchanged. -/
theorem ensemblesOf_apply_samples (S L : List (Sample Ens Traj))
    (h : ∀ s ∈ L, s.ensemble ∈ ensemblesOf S) (e : Ens) :
    e ∈ ensemblesOf (apply_samples S L) ↔ e ∈ ensemblesOf S := by
  unfold apply_samples ensemblesOf
  rw [List.map_append, List.mem_append]
  constructor
  · rintro (hk | hl)
    · rcases List.mem_map.mp hk with ⟨s, hs, rfl⟩
      exact List.mem_map_of_mem _ (List.mem_of_mem_filter hs)
    · rcases List.mem_map.mp hl with ⟨s, hs, rfl⟩
      exact h s hs
  · intro hS
    by_cases hL : e ∈ ensemblesOf L
    · right
      exact hL
    · left
      rcases List.mem_map.mp hS with ⟨s, hs, rfl⟩
      refine List.mem_map_of_mem _ ?_
      rw [List.mem_filter]
      refine ⟨hs, ?_⟩
      simp only [decide_eq_true_eq]
      exact hL

/-- Invariant of an always-accepting run: every recorded Step is ACCEPTED and
every recorded active SampleSet occupies the same set of ensembles `E`. -/
theorem run_accepted_invariant (d : Driver Ens Traj) (st : DriverState Ens Traj)
    (n : Nat) (E : List Ens)
    (hAcc : ∀ k S, d.accept k S = true)
    (hens : ∀ k S s, s ∈ d.propose k S → s.ensemble ∈ ensemblesOf S)
    (hactive : ∀ e, e ∈ ensemblesOf st.active ↔ e ∈ E)
    (hsteps : ∀ r ∈ st.steps, r.decision = Decision.accepted ∧
      (∀ e, e ∈ ensemblesOf r.active ↔ e ∈ E)) :
    (∀ e, e ∈ ensemblesOf (run d st n).active ↔ e ∈ E) ∧
    (∀ r ∈ (run d st n).steps, r.decision = Decision.accepted ∧
      (∀ e, e ∈ ensemblesOf r.active ↔ e ∈ E)) := by
  induction n generalizing st with
  | zero => exact ⟨hactive, hsteps⟩
  | succ n ih =>
    rw [run_succ]
    have hacc' := hAcc (st.stepsDone + 1)
      (apply_samples st.active (d.propose (st.stepsDone + 1) st.active))
    have hrecd : stepRecordOf d st =
        ⟨st.active, Decision.accepted,
          apply_samples st.active (d.propose (st.stepsDone + 1) st.active)⟩ := by
      unfold stepRecordOf
      simp [hacc']
    have hcand : ∀ e, e ∈ ensemblesOf
        (apply_samples st.active (d.propose (st.stepsDone + 1) st.active)) ↔ e ∈ E := by
      intro e
      exact (ensemblesOf_apply_samples st.active _
        (fun s hs => hens _ _ s hs) e).trans (hactive e)
    have hactive' : ∀ e, e ∈ ensemblesOf (runOneStep d st).active ↔ e ∈ E := by
      intro e
      rw [runOneStep_active, hrecd]
      exact hcand e
    have hsteps' : ∀ r ∈ (runOneStep d st).steps, r.decision = Decision.accepted ∧
        (∀ e, e ∈ ensemblesOf r.active ↔ e ∈ E) := by
      rw [runOneStep_steps, hrecd]
      intro r hr
      rcases List.mem_append.mp hr with hr | hr
      · exact hsteps r hr
      · rw [List.mem_singleton] at hr
        subst hr
        exact ⟨rfl, hcand⟩
    exact ih (runOneStep d st) hactive' hsteps'

/-- **C3.** `run(n)` performs exactly `n` Monte Carlo steps: it produces
exactly `n` Step records (from a fresh history); with a single always-accepted
move type whose proposals stay within the occupied ensembles, every record's
decision is ACCEPTED and every recorded active SampleSet occupies the same
set of ensembles as the initial SampleSet. -/
theorem run_exact_steps (d : Driver Ens Traj) (st0 : DriverState Ens Traj) (n : Nat)
    (hAcc : ∀ k S, d.accept k S = true)
    (hens : ∀ k S s, s ∈ d.propose k S → s.ensemble ∈ ensemblesOf S)
    (hfresh : st0.steps = []) :
    (run d st0 n).stepsDone = st0.stepsDone + n ∧
    (run d st0 n).steps.length = n ∧
    (∀ r ∈ (run d st0 n).steps, r.decision = Decision.accepted) ∧
    (∀ r ∈ (run d st0 n).steps, ∀ e,
      e ∈ ensemblesOf r.active ↔ e ∈ ensemblesOf st0.active) := by
  have hinv := run_accepted_invariant d st0 n (ensemblesOf st0.active) hAcc hens
    (fun e => Iff.rfl)
    (by
      rw [hfresh]
      intro r hr
      cases hr)
  refine ⟨run_stepsDone d st0 n, ?_, fun r hr => (hinv.2 r hr).1,
    fun r hr => (hinv.2 r hr).2⟩
  rw [run_steps_length, hfresh]
  simp

/-- Witness for **C3**: the concrete always-accepting driver run for 10 steps
from the concrete fresh state produces exactly 10 ACCEPTED Step records over
an unchanged ensemble set. -/
theorem run_exact_steps_witness :
    (run (sampleDriver 0) sampleState 10).stepsDone = sampleState.stepsDone + 10 ∧
    (run (sampleDriver 0) sampleState 10).steps.length = 10 ∧
    (∀ r ∈ (run (sampleDriver 0) sampleState 10).steps,
      r.decision = Decision.accepted) ∧
    (∀ r ∈ (run (sampleDriver 0) sampleState 10).steps, ∀ e,
      e ∈ ensemblesOf r.active ↔ e ∈ ensemblesOf sampleState.active) :=
  run_exact_steps (sampleDriver 0) sampleState 10 (fun _ _ => rfl)
    (by
      intro k S s hs
      simp [sampleDriver] at hs)
    rfl

set_option maxRecDepth 4000 in
/-- **C5.** With save frequency 50, `run(120)` performs exactly
`⌊120 / 50⌋ = 2` physical Storage appends while still performing all 120
logical state transitions (120 iterations, 120 logical Step records). -/
theorem run_save_frequency_cadence (d : Driver Ens Traj) (st0 : DriverState Ens Traj)
    (hK : d.save_frequency = 50) (h0 : st0.stepsDone = 0) (hs : st0.stored = []) :
    (run d st0 120).stored.length = 2 ∧
    (run d st0 120).stepsDone = 120 ∧
    (run d st0 120).steps.length = st0.steps.length + 120 := by
  refine ⟨?_, by rw [run_stepsDone, h0], run_steps_length d st0 120⟩
  rw [run_stored_length, hK, h0, hs, List.length_nil, Nat.zero_add]
  decide

/-- Witness for **C5**: the concrete driver with save frequency 50, run for
120 steps from the concrete fresh state. -/
theorem run_save_frequency_cadence_witness :
    (run (sampleDriver 50) sampleState 120).stored.length = 2 ∧
    (run (sampleDriver 50) sampleState 120).stepsDone = 120 ∧
    (run (sampleDriver 50) sampleState 120).steps.length = sampleState.steps.length + 120 :=
  run_save_frequency_cadence (sampleDriver 50) sampleState rfl rfl rfl

/-! ## Hook isolation (C8) -/

/-- Two drivers that agree on proposal, acceptance and save frequency (but
may differ in their visualization hook) produce the same active SampleSet,
step counter, Step history and persisted Steps from states agreeing on those
fields. -/
theorem run_sim_agree (d1 d2 : Driver Ens Traj) (n : Nat) :
    ∀ st1 st2 : DriverState Ens Traj,
    d1.propose = d2.propose → d1.accept = d2.accept →
    d1.save_frequency = d2.save_frequency →
    st1.active = st2.active → st1.stepsDone = st2.stepsDone →
    st1.steps = st2.steps → st1.stored = st2.stored →
    (run d1 st1 n).active = (run d2 st2 n).active ∧
    (run d1 st1 n).stepsDone = (run d2 st2 n).stepsDone ∧
    (run d1 st1 n).steps = (run d2 st2 n).steps ∧
    (run d1 st1 n).stored = (run d2 st2 n).stored := by
  induction n with
  | zero =>
    intro st1 st2 _ _ _ hA hD hSt hSo
    exact ⟨hA, hD, hSt, hSo⟩
  | succ n ih =>
    intro st1 st2 hprop hacc hK hA hD hSt hSo
    rw [run_succ, run_succ]
    have hrec : stepRecordOf d1 st1 = stepRecordOf d2 st2 := by
      unfold stepRecordOf
      rw [hA, hD, hprop, hacc]
    exact ih (runOneStep d1 st1) (runOneStep d2 st2) hprop hacc hK
      (by rw [runOneStep_active, runOneStep_active, hrec])
      (by rw [runOneStep_stepsDone, runOneStep_stepsDone, hD])
      (by rw [runOneStep_steps, runOneStep_steps, hSt, hrec])
      (by rw [runOneStep_stored, runOneStep_stored, hK, hD, hSo, hrec])

/-- The persisted Steps of a run extend the initial persisted Steps, and the
log extends the initial log by exactly the hook's exception messages on the
newly persisted Steps. -/
theorem run_stored_log (d : Driver Ens Traj) (st : DriverState Ens Traj) (n : Nat) :
    ∃ extra, (run d st n).stored = st.stored ++ extra ∧
      (run d st n).log = st.log ++ hookErrorLog d extra := by
  induction n generalizing st with
  | zero => exact ⟨[], by rw [run_zero]; simp, by rw [run_zero]; simp [hookErrorLog]⟩
  | succ n ih =>
    rcases ih (runOneStep d st) with ⟨extra, h1, h2⟩
    rw [run_succ]
    by_cases hp : persistsAt d.save_frequency (st.stepsDone + 1) = true
    · refine ⟨stepRecordOf d st :: extra, ?_, ?_⟩
      · rw [h1, runOneStep_stored, if_pos hp]
        simp
      · rw [h2, runOneStep_log, if_pos hp]
        cases hh : d.hook (stepRecordOf d st) with
        | ok u => simp [hookErrorLog, List.filterMap_cons, hh]
        | error e => simp [hookErrorLog, List.filterMap_cons, hh]
    · refine ⟨extra, ?_, ?_⟩
      · rw [h1, runOneStep_stored, if_neg hp]
      · rw [h2, runOneStep_log, if_neg hp]

/-- **C8.** A failing visualization hook never aborts the run loop and never
mutates simulation state: the run with any hook produces exactly the active
SampleSet, Step history and persisted Steps of the run with a never-failing
hook, still completes all `n` iterations, and every exception the hook raises
on a persisted Step is appended to the log (caught and logged, not
propagated). -/
theorem run_hook_isolated (d : Driver Ens Traj) (st : DriverState Ens Traj) (n : Nat) :
    ((run d st n).active =
        (run { d with hook := fun _ => Except.ok () } st n).active ∧
      (run d st n).steps =
        (run { d with hook := fun _ => Except.ok () } st n).steps ∧
      (run d st n).stored =
        (run { d with hook := fun _ => Except.ok () } st n).stored ∧
      (run d st n).stepsDone = st.stepsDone + n) ∧
    (run d st n).log =
      st.log ++ hookErrorLog d ((run d st n).stored.drop st.stored.length) := by
  have hagree := run_sim_agree d { d with hook := fun _ => Except.ok () } n st st
    rfl rfl rfl rfl rfl rfl rfl
  refine ⟨⟨hagree.1, hagree.2.2.1, hagree.2.2.2, run_stepsDone d st n⟩, ?_⟩
  rcases run_stored_log d st n with ⟨extra, h1, h2⟩
  rw [h2, h1, List.drop_left]

/-! ## Storage round-trip (C9) -/

/-- Reading a stored SampleSet back rebuilds it exactly. -/
theorem readSampleSet_writeSampleSet (S : List (Sample Ens Traj)) :
    readSampleSet (writeSampleSet S) = S := by
  unfold readSampleSet writeSampleSet
  rw [List.map_map]
  exact List.map_id S

/-- Reading a stored Step record back rebuilds it exactly. -/
theorem readStep_writeStep (r : StepRecord Ens Traj) :
    readStep (writeStep r) = r := by
  cases r with
  | mk b dec act =>
    unfold readStep writeStep
    simp [readSampleSet_writeSampleSet]

/-- **C9.** Persist-then-read round trip: serializing the persisted Steps of
any run and reading them back yields exactly as many Step records, equal to
the in-memory ones, and in particular each read-back active SampleSet has the
same ensemble-to-replica-id mapping as the in-memory active SampleSet of the
corresponding persisted Step. -/
theorem storage_round_trip (d : Driver Ens Traj) (st : DriverState Ens Traj) (n : Nat) :
    (((run d st n).stored.map writeStep).map readStep) = (run d st n).stored ∧
    (((run d st n).stored.map writeStep).map readStep).length = (run d st n).stored.length ∧
    ∀ r ∈ (run d st n).stored, ∀ e : Ens,
      replicaOf (readStep (writeStep r)).active e = replicaOf r.active e := by
  have hmap : ((run d st n).stored.map writeStep).map readStep = (run d st n).stored := by
    rw [List.map_map]
    exact (List.map_congr_left (fun r _ => readStep_writeStep r)).trans (List.map_id _)
  refine ⟨hmap, by rw [hmap], ?_⟩
  intro r hr e
  rw [readStep_writeStep]

/-- Witness for **C9**: the round trip at a concrete persisted Step of a
concrete (zero-iteration) run preserves the replica id of ensemble 1. -/
theorem storage_round_trip_witness :
    replicaOf (readStep (writeStep
      (⟨[⟨0, 1, 7⟩], Decision.accepted, [⟨0, 1, 7⟩]⟩ : StepRecord Nat Nat))).active 1 =
    replicaOf ([(⟨0, 1, 7⟩ : Sample Nat Nat)]) 1 :=
  (storage_round_trip (sampleDriver 0)
    { active := [⟨0, 1, 7⟩]
      stepsDone := 0
      steps := []
      stored := [⟨[⟨0, 1, 7⟩], Decision.accepted, [⟨0, 1, 7⟩]⟩]
      log := [] } 0).2.2 _ (by rw [run_zero]; exact List.mem_cons_self _ _) 1

/-! ## SampleSet validity invariant (C7) -/

/-- Applying a validated list of new Samples preserves SampleSet validity. -/
theorem apply_samples_valid (sat : Ens → Traj → Bool) (S L : List (Sample Ens Traj))
    (hS : validSampleSet sat S) (hL : ValidatedFor sat S L) :
    validSampleSet sat (apply_samples S L) := by
  rcases hS with ⟨hSe, hSr, hSsat⟩
  rcases hL with ⟨hLe, hLr, hLsat, hLdisj⟩
  have hkept : (S.filter (fun s => decide (s.ensemble ∉ ensemblesOf L))).Sublist S :=
    List.filter_sublist S
  refine ⟨?_, ?_, ?_⟩
  · unfold apply_samples ensemblesOf
    rw [List.map_append, List.nodup_append]
    refine ⟨List.Nodup.sublist (List.Sublist.map _ hkept) hSe, hLe, ?_⟩
    rw [List.disjoint_left]
    intro a ha haL
    rcases List.mem_map.mp ha with ⟨s, hs, rfl⟩
    rcases List.mem_filter.mp hs with ⟨_, hq⟩
    simp only [decide_eq_true_eq] at hq
    exact hq haL
  · unfold apply_samples
    rw [List.map_append, List.nodup_append]
    refine ⟨List.Nodup.sublist (List.Sublist.map _ hkept) hSr, hLr, ?_⟩
    rw [List.disjoint_left]
    intro a ha haL
    rcases List.mem_map.mp ha with ⟨s, hs, rfl⟩
    rcases List.mem_filter.mp hs with ⟨hsS, hq⟩
    simp only [decide_eq_true_eq] at hq
    rcases List.mem_map.mp haL with ⟨l, hl, hlr⟩
    exact hLdisj l hl s hsS hq hlr
  · intro s hs
    rcases List.mem_append.mp hs with hs | hs
    · exact hSsat s (List.mem_of_mem_filter hs)
    · exact hLsat s hs

/-- **C7.** Every SampleSet reachable by the driver's operations (a valid
bootstrap followed by applications of validated Sample lists) has at most one
Sample per ensemble, pairwise-distinct replica ids, and only Samples whose
trajectory satisfies their ensemble's predicate; and a run whose proposals
are always validated persists no Step whose active SampleSet violates this. -/
theorem sample_set_invariant (sat : Ens → Traj → Bool) :
    (∀ S : List (Sample Ens Traj), ReachableSampleSet sat S → validSampleSet sat S) ∧
    (∀ (d : Driver Ens Traj) (st : DriverState Ens Traj) (n : Nat),
      validSampleSet sat st.active →
      (∀ r ∈ st.stored, validSampleSet sat r.active) →
      (∀ k S, ValidatedFor sat S (d.propose k S)) →
      validSampleSet sat (run d st n).active ∧
      ∀ r ∈ (run d st n).stored, validSampleSet sat r.active) := by
  constructor
  · intro S h
    induction h with
    | boot S hS => exact hS
    | applyStep S L _ hval ih => exact apply_samples_valid sat S L ih hval
  · intro d st n
    induction n generalizing st with
    | zero =>
      intro h1 h2 _
      rw [run_zero]
      exact ⟨h1, h2⟩
    | succ n ih =>
      intro h1 h2 h3
      rw [run_succ]
      have hrecact_eq : (stepRecordOf d st).active =
          (if d.accept (st.stepsDone + 1)
              (apply_samples st.active (d.propose (st.stepsDone + 1) st.active)) = true
           then apply_samples st.active (d.propose (st.stepsDone + 1) st.active)
           else st.active) := rfl
      have hact : validSampleSet sat (stepRecordOf d st).active := by
        rw [hrecact_eq]
        split
        · exact apply_samples_valid sat _ _ h1 (h3 _ _)
        · exact h1
      have h1' : validSampleSet sat (runOneStep d st).active := by
        rw [runOneStep_active]
        exact hact
      have h2' : ∀ r ∈ (runOneStep d st).stored, validSampleSet sat r.active := by
        rw [runOneStep_stored]
        split
        · intro r hr
          rcases List.mem_append.mp hr with hr | hr
          · exact h2 r hr
          · rw [List.mem_singleton] at hr
            subst hr
            exact hact
        · exact h2
      exact ih (runOneStep d st) h1' h2' h3

/-- Witness for **C7**: a concrete valid bootstrap SampleSet with a validated
replacement applied is valid. -/
theorem sample_set_invariant_witness :
    validSampleSet satW (apply_samples [(⟨0, 1, 1⟩ : Sample Nat Nat)] [⟨1, 2, 2⟩]) :=
  (sample_set_invariant satW).1 _
    (ReachableSampleSet.applyStep _ _
      (ReachableSampleSet.boot _ (by
        refine ⟨by decide, by decide, ?_⟩
        intro s hs
        rw [List.mem_singleton] at hs
        subst hs
        rfl))
      (by
        refine ⟨by decide, by decide, ?_, ?_⟩
        · intro s hs
          rw [List.mem_singleton] at hs
          subst hs
          rfl
        · intro s hs t ht hne
          rw [List.mem_singleton] at hs ht
          subst hs
          subst ht
          decide))

/-! ## Filling missing initial conditions (C10) -/

/-- An ensemble unoccupied in an extended SampleSet is unoccupied in the
original. -/
theorem lookupSample_append_none (S T : List (Sample Ens Traj)) (e : Ens)
    (h : lookupSample (S ++ T) e = none) : lookupSample S e = none := by
  unfold lookupSample at h ⊢
  rw [List.find?_eq_none] at h ⊢
  intro x hx
  exact h x (List.mem_append_left T hx)

/-- One-step unfolding of `initial_conditions_from_trajectories`. -/
theorem initial_conditions_cons (sat : Ens → Traj → Bool) (trajs : List Traj)
    (e : Ens) (es : List Ens) (sset : List (Sample Ens Traj)) :
    initial_conditions_from_trajectories sat trajs (e :: es) sset =
      initial_conditions_from_trajectories sat trajs es
        (if (lookupSample sset e).isSome then sset
         else
           match trajs.find? (fun t => sat e t) with
           | some t => sset ++ [⟨sset.length, e, t⟩]
           | none => sset) := rfl

/-- `initial_conditions_from_trajectories` only appends, and only Samples for
listed ensembles that were unoccupied in the given SampleSet. -/
theorem initial_conditions_appends (sat : Ens → Traj → Bool) (trajs : List Traj)
    (es : List Ens) (sset : List (Sample Ens Traj)) :
    ∃ rest, initial_conditions_from_trajectories sat trajs es sset = sset ++ rest ∧
      ∀ s ∈ rest, s.ensemble ∈ es ∧ lookupSample sset s.ensemble = none := by
  induction es generalizing sset with
  | nil => exact ⟨[], by simp [initial_conditions_from_trajectories], by simp⟩
  | cons e es ih =>
    rw [initial_conditions_cons]
    by_cases hocc : (lookupSample sset e).isSome = true
    · rw [if_pos hocc]
      rcases ih sset with ⟨rest, h1, h2⟩
      exact ⟨rest, h1, fun s hs =>
        ⟨List.mem_cons_of_mem e (h2 s hs).1, (h2 s hs).2⟩⟩
    · rw [if_neg hocc]
      have hnone : lookupSample sset e = none := Option.not_isSome_iff_eq_none.mp hocc
      cases hfind : trajs.find? (fun t => sat e t) with
      | none =>
        rcases ih sset with ⟨rest, h1, h2⟩
        exact ⟨rest, h1, fun s hs =>
          ⟨List.mem_cons_of_mem e (h2 s hs).1, (h2 s hs).2⟩⟩
      | some t =>
        rcases ih (sset ++ [⟨sset.length, e, t⟩]) with ⟨rest, h1, h2⟩
        refine ⟨⟨sset.length, e, t⟩ :: rest, ?_, ?_⟩
        · rw [h1]
          simp
        · intro s hs
          rcases List.mem_cons.mp hs with rfl | hs
          · exact ⟨List.mem_cons_self e es, hnone⟩
          · rcases h2 s hs with ⟨hin, hlook⟩
            exact ⟨List.mem_cons_of_mem e hin,
              lookupSample_append_none sset _ s.ensemble hlook⟩

/-- **C10.** Given an existing SampleSet, `initial_conditions_from_trajectories`
only appends: every Sample of the given SampleSet appears unchanged (the
result is the given list extended by a suffix), the appended Samples are only
for move-scheme ensembles that were unoccupied, and every ensemble outside
the move scheme's ensemble list (e.g. defined by the network but unused by
the scheme) keeps exactly its previous occupant. -/
theorem initial_conditions_frame (sat : Ens → Traj → Bool) (trajs : List Traj)
    (es : List Ens) (sset : List (Sample Ens Traj)) :
    (∃ rest, initial_conditions_from_trajectories sat trajs es sset = sset ++ rest ∧
      ∀ s ∈ rest, s.ensemble ∈ es ∧ lookupSample sset s.ensemble = none) ∧
    (∀ e, e ∉ es →
      lookupSample (initial_conditions_from_trajectories sat trajs es sset) e =
        lookupSample sset e) := by
  refine ⟨initial_conditions_appends sat trajs es sset, ?_⟩
  intro e he
  rcases initial_conditions_appends sat trajs es sset with ⟨rest, h1, h2⟩
  rw [h1]
  unfold lookupSample
  rw [List.find?_append]
  have hrest : rest.find? (fun s => decide (s.ensemble = e)) = none := by
    rw [List.find?_eq_none]
    intro s hs
    simp only [decide_eq_true_eq]
    intro hse
    exact he (hse ▸ (h2 s hs).1)
  cases hS : sset.find? (fun s => decide (s.ensemble = e)) <;> simp [hS, hrest]

/-- Witness for **C10** at a concrete scheme-ensemble list, candidate
trajectory list and SampleSet: the result extends the SampleSet and ensemble
7 (outside the scheme) is untouched. -/
theorem initial_conditions_frame_witness :
    (∃ rest, initial_conditions_from_trajectories satW [2] [1, 2, 3]
        [(⟨0, 1, 5⟩ : Sample Nat Nat)] = [(⟨0, 1, 5⟩ : Sample Nat Nat)] ++ rest ∧
      ∀ s ∈ rest, s.ensemble ∈ [1, 2, 3] ∧
        lookupSample [(⟨0, 1, 5⟩ : Sample Nat Nat)] s.ensemble = none) ∧
    lookupSample (initial_conditions_from_trajectories satW [2] [1, 2, 3]
        [(⟨0, 1, 5⟩ : Sample Nat Nat)]) 7 =
      lookupSample [(⟨0, 1, 5⟩ : Sample Nat Nat)] 7 :=
  ⟨(initial_conditions_frame satW [2] [1, 2, 3] [⟨0, 1, 5⟩]).1,
   (initial_conditions_frame satW [2] [1, 2, 3] [⟨0, 1, 5⟩]).2 7 (by decide)⟩

end OpsTutorial
